import Mathlib

/-!
# Verification of SILC core components

A shallow embedding, in Lean 4, of the core data structures and
operations of the SILC repository (a PTY session server written in
Python), together with proofs and refutations of the specification
claims about them.

Conventions of the embedding:
* Python `bytes` / `bytearray` values are modelled as `List Nat`
  (one `Nat` per byte).
* Python `str` values are modelled as Lean `String`; text-level
  operations (`split`, `strip`, `splitlines`, `replace`, regular
  expression search) are implemented character by character, following
  the semantics of the Python functions used by the source.
* Mutable objects become explicit state records; a method that mutates
  state becomes a function returning the new state (paired with the
  return value and, where relevant, a record of its externally visible
  effects).
* Nat subtraction `a - b` is truncated at zero, which coincides with
  Python's `max(0, a - b)` wherever the source guards subtractions.
-/

namespace Silc

/-! ## `silc/core/raw_buffer.py` — `RawByteBuffer`

State and operations of the byte ring buffer.  The Python attributes
`maxlen`, `_buffer`, `_start_offset`, `_total_bytes`, `cursor` map to
the fields below; bytes are `List Nat`. -/

structure RawByteBuffer where
  maxlen : Nat
  buffer : List Nat
  startOffset : Nat
  totalBytes : Nat
  cursor : Nat
deriving DecidableEq, Repr

/-- `RawByteBuffer.__init__`: empty buffer with all counters at 0. -/
def RawByteBuffer.init (maxlen : Nat) : RawByteBuffer :=
  { maxlen := maxlen, buffer := [], startOffset := 0, totalBytes := 0, cursor := 0 }

/-- `RawByteBuffer.append`: extend, update `total_bytes` and `cursor`;
if the buffer exceeds `maxlen`, drop the oldest `overflow` bytes and
advance `start_offset` by the same amount.  Empty payloads return
immediately. -/
def RawByteBuffer.append (s : RawByteBuffer) (data : List Nat) : RawByteBuffer :=
  if data = [] then s
  else
    let buf := s.buffer ++ data
    let total := s.totalBytes + data.length
    if buf.length ≤ s.maxlen then
      { s with buffer := buf, totalBytes := total, cursor := total }
    else
      let overflow := buf.length - s.maxlen
      { s with buffer := buf.drop overflow,
               startOffset := s.startOffset + overflow,
               totalBytes := total, cursor := total }

/-- `RawByteBuffer.get_since`: clamp the cursor into
`[start_offset, total_bytes]`, then return the suffix of the stored
buffer from `cursor - start_offset` together with `total_bytes` as the
new cursor (empty suffix when the start index reaches the end). -/
def RawByteBuffer.get_since (s : RawByteBuffer) (cursor : Nat) : List Nat × Nat :=
  let c1 := if cursor < s.startOffset then s.startOffset else cursor
  let c2 := if c1 > s.totalBytes then s.totalBytes else c1
  let startIndex := c2 - s.startOffset
  if startIndex ≥ s.buffer.length then ([], s.totalBytes)
  else (s.buffer.drop startIndex, s.totalBytes)

/-- Folding a sequence of `append` calls over a buffer state. -/
def RawByteBuffer.appendAll (s : RawByteBuffer) (datas : List (List Nat)) : RawByteBuffer :=
  datas.foldl RawByteBuffer.append s

/-- A buffer state reachable from a fresh buffer of capacity `maxlen`
by some sequence of `append` calls. -/
def RawByteBuffer.Reachable (maxlen : Nat) (s : RawByteBuffer) : Prop :=
  ∃ datas : List (List Nat), s = (RawByteBuffer.init maxlen).appendAll datas

/-- The basic shape invariant maintained by `append`. -/
def RawByteBuffer.Inv (C : Nat) (S : Nat) (s : RawByteBuffer) : Prop :=
  s.maxlen = C ∧ s.buffer.length = min S C ∧ s.startOffset = S - C ∧
    s.totalBytes = S ∧ s.cursor = S

theorem RawByteBuffer.init_inv (C : Nat) : RawByteBuffer.Inv C 0 (RawByteBuffer.init C) := by
  simp [RawByteBuffer.Inv, RawByteBuffer.init]

theorem RawByteBuffer.append_inv {C S : Nat} {s : RawByteBuffer}
    (h : RawByteBuffer.Inv C S s) (data : List Nat) :
    RawByteBuffer.Inv C (S + data.length) (s.append data) := by
  obtain ⟨hC, hlen, hoff, htot, hcur⟩ := h
  unfold RawByteBuffer.append
  by_cases hd : data = []
  · subst hd
    simp only [List.length_nil, Nat.add_zero, if_pos rfl]
    exact ⟨hC, hlen, hoff, htot, hcur⟩
  · simp only [if_neg hd]
    have hdlen : 0 < data.length := List.length_pos.mpr hd
    by_cases hfit : (s.buffer ++ data).length ≤ s.maxlen
    · simp only [if_pos hfit, RawByteBuffer.Inv]
      simp only [List.length_append] at hfit
      refine ⟨hC, ?_, ?_, ?_, ?_⟩
      · show (s.buffer ++ data).length = min (S + data.length) C
        simp only [List.length_append]; omega
      · show s.startOffset = S + data.length - C
        omega
      · show s.totalBytes + data.length = S + data.length
        omega
      · show s.totalBytes + data.length = S + data.length
        omega
    · simp only [if_neg hfit, RawByteBuffer.Inv]
      simp only [List.length_append] at hfit
      refine ⟨hC, ?_, ?_, ?_, ?_⟩
      · show ((s.buffer ++ data).drop ((s.buffer ++ data).length - s.maxlen)).length
            = min (S + data.length) C
        simp only [List.length_drop, List.length_append]; omega
      · show s.startOffset + ((s.buffer ++ data).length - s.maxlen) = S + data.length - C
        simp only [List.length_append]; omega
      · show s.totalBytes + data.length = S + data.length
        omega
      · show s.totalBytes + data.length = S + data.length
        omega

theorem RawByteBuffer.appendAll_inv {C S : Nat} {s : RawByteBuffer}
    (h : RawByteBuffer.Inv C S s) (datas : List (List Nat)) :
    RawByteBuffer.Inv C (S + (datas.map List.length).sum) (s.appendAll datas) := by
  induction datas generalizing s S with
  | nil => simpa [RawByteBuffer.appendAll] using h
  | cons d ds ih =>
    have h1 := RawByteBuffer.append_inv h d
    have h2 := ih h1
    simpa [RawByteBuffer.appendAll, List.foldl_cons, Nat.add_assoc] using h2

theorem RawByteBuffer.reachable_inv {maxlen : Nat} {s : RawByteBuffer}
    (h : RawByteBuffer.Reachable maxlen s) :
    s.startOffset + s.buffer.length = s.totalBytes ∧ s.startOffset ≤ s.totalBytes := by
  obtain ⟨datas, rfl⟩ := h
  have h0 := RawByteBuffer.appendAll_inv (RawByteBuffer.init_inv maxlen) datas
  obtain ⟨_, hlen, hoff, htot, _⟩ := h0
  constructor <;> omega

end Silc

/-- C2: For every sequence of `append` calls with payloads of total
size `S` on a `RawByteBuffer` of capacity `C`, afterwards the stored
buffer length is `min S C`, `start_offset` is `S - C` (truncated Nat
subtraction, i.e. `max 0 (S - C)`), and `total_bytes` and `cursor`
both equal `S`. -/
theorem C2_append_totals (C : Nat) (datas : List (List Nat)) :
    ((Silc.RawByteBuffer.init C).appendAll datas).buffer.length
        = min ((datas.map List.length).sum) C ∧
    ((Silc.RawByteBuffer.init C).appendAll datas).startOffset
        = (datas.map List.length).sum - C ∧
    ((Silc.RawByteBuffer.init C).appendAll datas).totalBytes
        = (datas.map List.length).sum ∧
    ((Silc.RawByteBuffer.init C).appendAll datas).cursor
        = (datas.map List.length).sum := by
  have h := Silc.RawByteBuffer.appendAll_inv (Silc.RawByteBuffer.init_inv C) datas
  obtain ⟨_, hlen, hoff, htot, hcur⟩ := h
  simp only [Nat.zero_add] at hlen hoff htot hcur
  exact ⟨hlen, hoff, htot, hcur⟩

/-- C1: On every reachable `RawByteBuffer` state, for every cursor
`c ≤ total_bytes`, `get_since c` returns exactly the suffix
`buffer[max c start_offset - start_offset :]` of the stored buffer
paired with `total_bytes`; in particular at `c = total_bytes` it
returns the empty byte string and the unchanged cursor. -/
theorem C1_get_since_suffix (maxlen : Nat) (s : Silc.RawByteBuffer)
    (hreach : Silc.RawByteBuffer.Reachable maxlen s)
    (c : Nat) (hc : c ≤ s.totalBytes) :
    s.get_since c = (s.buffer.drop (max c s.startOffset - s.startOffset), s.totalBytes) ∧
    s.get_since s.totalBytes = ([], s.totalBytes) := by
  obtain ⟨hsum, hle⟩ := Silc.RawByteBuffer.reachable_inv hreach
  constructor
  · unfold Silc.RawByteBuffer.get_since
    by_cases h1 : c < s.startOffset
    · have hmax : max c s.startOffset = s.startOffset := by omega
      simp only [if_pos h1, hmax]
      have h2 : ¬ s.startOffset > s.totalBytes := by omega
      simp only [if_neg h2]
      by_cases h3 : s.startOffset - s.startOffset ≥ s.buffer.length
      · have hnil : s.buffer.drop (s.startOffset - s.startOffset) = [] :=
          List.drop_eq_nil_of_le (by omega)
        simp [h3, hnil]
      · simp [h3]
    · have hmax : max c s.startOffset = c := by omega
      simp only [if_neg h1, hmax]
      have h2 : ¬ c > s.totalBytes := by omega
      simp only [if_neg h2]
      by_cases h3 : c - s.startOffset ≥ s.buffer.length
      · have hnil : s.buffer.drop (c - s.startOffset) = [] :=
          List.drop_eq_nil_of_le (by omega)
        simp [h3, hnil]
      · simp [h3]
  · unfold Silc.RawByteBuffer.get_since
    have h1 : ¬ s.totalBytes < s.startOffset := by omega
    have h2 : ¬ s.totalBytes > s.totalBytes := by omega
    have h3 : s.totalBytes - s.startOffset ≥ s.buffer.length := by omega
    simp only [if_neg h1, if_neg h2, if_pos h3]

/-- Witness for C1 at a concrete reachable state: capacity 4, appends
`[1,2,3]` then `[4,5,6]` (so two oldest bytes were evicted), cursor 2. -/
theorem C1_get_since_suffix_witness :
    Silc.RawByteBuffer.Reachable 4
      ((Silc.RawByteBuffer.init 4).appendAll [[1,2,3],[4,5,6]]) ∧
    2 ≤ ((Silc.RawByteBuffer.init 4).appendAll [[1,2,3],[4,5,6]]).totalBytes ∧
    ((Silc.RawByteBuffer.init 4).appendAll [[1,2,3],[4,5,6]]).get_since 2
      = ([3,4,5,6], 6) := by
  refine ⟨⟨[[1,2,3],[4,5,6]], rfl⟩, by decide, ?_⟩
  have h := C1_get_since_suffix 4 ((Silc.RawByteBuffer.init 4).appendAll [[1,2,3],[4,5,6]])
    ⟨[[1,2,3],[4,5,6]], rfl⟩ 2 (by decide)
  exact h.1.trans (by decide)

namespace Silc

/-! ## Python string primitives

Character-level implementations of the Python `str` operations used by
the source: `splitlines`, whitespace `strip`/`split`, `lower`,
negative-index slicing, and `split(sep, 1)`. -/

/-- The line-boundary characters recognised by Python `str.splitlines`
(`\n`, `\r`, `\v`, `\f`, the C1 separators, NEL, and the Unicode line
and paragraph separators; `\r\n` counts as a single boundary). -/
def lineBoundary (c : Char) : Bool :=
  c = '\n' || c = '\r' || c = '\x0b' || c = '\x0c' ||
  c = '\x1c' || c = '\x1d' || c = '\x1e' || c = '\x85' ||
  c = ' ' || c = ' '

/-- Replace every occurrence of the two-character sequence `\r\n` by a
single `\n` (the Python `str.replace("\r\n", "\n")`, scanning left to
right over non-overlapping occurrences). -/
def replCRLF : List Char → List Char
  | [] => []
  | '\r' :: '\n' :: rest => '\n' :: replCRLF rest
  | c :: rest => c :: replCRLF rest

/-- Replace every remaining `\r` by `\n` (the Python
`str.replace("\r", "\n")` for a single character). -/
def replCR (l : List Char) : List Char :=
  l.map (fun c => if c = '\r' then '\n' else c)

/-- The Python idiom `text.replace("\r\n", "\n").replace("\r", "\n")`. -/
def normalizeNewlines (s : String) : String :=
  String.mk (replCR (replCRLF s.data))

/-- Worker for `pySplitlines`: accumulate the current line (reversed);
each boundary character ends a line; a final nonempty accumulator
yields a trailing line, and there is no trailing empty line. -/
def pySplitlinesAux : List Char → List Char → List String
  | acc, [] => if acc.isEmpty then [] else [String.mk acc.reverse]
  | acc, c :: rest =>
    if lineBoundary c then String.mk acc.reverse :: pySplitlinesAux [] rest
    else pySplitlinesAux (c :: acc) rest

/-- Python `str.splitlines`.  The two-character boundary `\r\n` is
first collapsed to a single `\n` (occurrence for occurrence), after
which every remaining boundary character ends exactly one line. -/
def pySplitlines (s : String) : List String :=
  pySplitlinesAux [] (replCRLF s.data)

/-- Python negative-index tail slice `l[-n:]`.  Note that `l[-0:]` is
`l[0:]`, the whole list — Python has no negative zero. -/
def pySliceLast {α : Type} (n : Nat) (l : List α) : List α :=
  if n = 0 then l else l.drop (l.length - n)

/-- The whitespace characters stripped by Python `str.strip()` and
split on by `str.split()` (ASCII portion). -/
def pyIsSpace (c : Char) : Bool :=
  c = ' ' || c = '\t' || c = '\n' || c = '\r' || c = '\x0b' || c = '\x0c'

/-- Python `str.strip()` (whitespace from both ends). -/
def pyStrip (s : String) : String :=
  String.mk (((s.data.dropWhile pyIsSpace).reverse.dropWhile pyIsSpace).reverse)

/-- Worker for `pyWords`. -/
def pyWordsAux : List Char → List Char → List String
  | acc, [] => if acc.isEmpty then [] else [String.mk acc.reverse]
  | acc, c :: rest =>
    if pyIsSpace c then
      if acc.isEmpty then pyWordsAux [] rest
      else String.mk acc.reverse :: pyWordsAux [] rest
    else pyWordsAux (c :: acc) rest

/-- Python `str.split()` with no argument: split on runs of
whitespace, discarding empty fields. -/
def pyWords (s : String) : List String :=
  pyWordsAux [] s.data

/-- Python `str.lower()` (ASCII case folding). -/
def pyLower (s : String) : String :=
  String.mk (s.data.map Char.toLower)

/-- Python `s.split(sep, 1)` for a single-character separator: split at
the first occurrence only. -/
def pySplitOnceAux (sep : Char) : List Char → List Char → List String
  | acc, [] => [String.mk acc.reverse]
  | acc, c :: rest =>
    if c = sep then [String.mk acc.reverse, String.mk rest]
    else pySplitOnceAux sep (c :: acc) rest

def pySplitOnce (sep : Char) (s : String) : List String :=
  pySplitOnceAux sep [] s.data

/-! ## `silc/core/raw_buffer.py` — `RawByteBuffer.get_last`

The buffer bytes are decoded (`utf-8`, lossy) and then handled purely
as text; `get_last` is therefore modelled on the decoded string.  The
decoding step is common to the code and to the claim being checked, so
nothing about it is at issue. -/

/-- `RawByteBuffer.get_last`: on a nonempty buffer, decode, split with
`str.splitlines`, and return the whole list when `lines` is `none` or
at least the number of lines, else the Python slice
`split_lines[-lines:]`. -/
def get_last (decoded : String) (lines : Option Nat) : List String :=
  if decoded = "" then []
  else
    let splitLines := pySplitlines decoded
    match lines with
    | none => splitLines
    | some n =>
      if n ≥ splitLines.length then splitLines
      else pySliceLast n splitLines

/-- Split on every occurrence of a single character, keeping empty
fields (Python `str.split(sep)` with an explicit separator). -/
def splitOnCharAux (sep : Char) : List Char → List Char → List String
  | acc, [] => [String.mk acc.reverse]
  | acc, c :: rest =>
    if c = sep then String.mk acc.reverse :: splitOnCharAux sep [] rest
    else splitOnCharAux sep (c :: acc) rest

def splitOnChar (sep : Char) (s : String) : List String :=
  splitOnCharAux sep [] s.data

/-- The claim's description of `get_last`: split the decoded text on
the newline character `'\n'` and keep the last `n` elements of that
split (all of them when there are fewer than `n`). -/
def claimGetLast (decoded : String) (n : Nat) : List String :=
  let parts := splitOnChar '\n' decoded
  parts.drop (parts.length - n)

/-! ## `silc/utils/persistence.py` — log rotation

`rotate_session_log` / `rotate_daemon_log` read the log file, split
with `str.splitlines`, and, when there are more than `max_lines`
lines, overwrite the file with `"\\n".join(lines[-max_lines:]) + "\\n"`
— note that the Python source writes the two-character escaped
sequence `\\n` (a backslash followed by `n`), not a newline.  The file
content is modelled as the string read/written. -/

/-- The content transformation performed by `rotate_session_log` (and
identically by `rotate_daemon_log`): `none` means the file is left
untouched. -/
def rotate_log_content (content : String) (maxLines : Nat) : Option String :=
  let lines := pySplitlines content
  if lines.length > maxLines then
    some (String.intercalate "\\n" (pySliceLast maxLines lines) ++ "\\n")
  else none

/-- What the claim says rotation writes: the last `max_lines` lines,
one per line, each terminated by a newline. -/
def claimRotatedContent (content : String) (maxLines : Nat) : String :=
  String.intercalate "\n" (pySliceLast maxLines (pySplitlines content)) ++ "\n"

end Silc

/-- C7 counterexample: the code splits with Python `splitlines`, not on
the newline character.  On the buffer text `"a\rb"` (one carriage
return, no newline) the claim's split keeps one element `"a\rb"`, but
`get_last` returns the two lines `["a", "b"]`. -/
theorem C7_counterexample :
    Silc.get_last "a\rb" (some 5) = ["a", "b"] ∧
    Silc.claimGetLast "a\rb" 5 = ["a\rb"] ∧
    Silc.get_last "a\rb" (some 5) ≠ Silc.claimGetLast "a\rb" 5 := by
  refine ⟨?_, ?_, ?_⟩ <;> decide

/-- C7 (amended): `get_last` on a nonempty buffer splits the decoded
text with Python `splitlines` semantics (any of `\n`, `\r`, `\r\n`,
`\v`, `\f`, … ends a line, with no trailing empty line) and keeps the
last `n` of those lines — all of them when there are at most `n`, and
also all of them when `n = 0` (Python's `[-0:]` slice is the whole
list); an empty buffer yields `[]`. -/
theorem C7_get_last_amended (decoded : String) (n : Nat) :
    Silc.get_last decoded (some n) =
      if decoded = "" then []
      else if n = 0 then Silc.pySplitlines decoded
      else (Silc.pySplitlines decoded).drop ((Silc.pySplitlines decoded).length - n) := by
  unfold Silc.get_last Silc.pySliceLast
  by_cases h0 : decoded = ""
  · simp [h0]
  · simp only [if_neg h0]
    by_cases hn : n = 0
    · subst hn
      by_cases hlen : 0 ≥ (Silc.pySplitlines decoded).length
      · have : Silc.pySplitlines decoded = [] := List.length_eq_zero.mp (by omega)
        simp [this]
      · simp [hlen]
    · simp only [if_neg hn]
      by_cases hlen : n ≥ (Silc.pySplitlines decoded).length
      · have : (Silc.pySplitlines decoded).length - n = 0 := by omega
        simp [hlen, this]
      · simp [hlen]

namespace Silc

/-! ## `silc/core/cleaner.py` — `clean_output`

`ANSI_ESCAPE` matches an `ESC` followed by either one single final
byte or a full CSI sequence `[` params intermediates final (the
character classes are spelled out below); `PROGRESS_RE = \d{1,3}%`.
Both are applied per line. -/

/-- The character class `[@-Z\\-_]` (single-character escape finals):
code points `0x40`–`0x5A` and `0x5C`–`0x5F`. -/
def isAnsiSingleFinal (c : Char) : Bool :=
  (decide (0x40 ≤ c.toNat) && decide (c.toNat ≤ 0x5A)) ||
  (decide (0x5C ≤ c.toNat) && decide (c.toNat ≤ 0x5F))

/-- CSI parameter bytes `[0-?]`: `0x30`–`0x3F`. -/
def isCsiParam (c : Char) : Bool :=
  decide (0x30 ≤ c.toNat) && decide (c.toNat ≤ 0x3F)

/-- CSI intermediate bytes (space through slash): `0x20`–`0x2F`. -/
def isCsiInter (c : Char) : Bool :=
  decide (0x20 ≤ c.toNat) && decide (c.toNat ≤ 0x2F)

/-- CSI final bytes `[@-~]`: `0x40`–`0x7E`. -/
def isCsiFinal (c : Char) : Bool :=
  decide (0x40 ≤ c.toNat) && decide (c.toNat ≤ 0x7E)

/-- `re.sub(ANSI_ESCAPE, "", ·)` as a left-to-right scanner.  At an
`ESC` the regex either consumes one single-character final, or a CSI
sequence `[` params* intermediates* final (the three classes are
disjoint, so the greedy star needs no backtracking); on a failed match
the scan emits the character and moves one position right.  `fuel`
bounds the recursion by the input length. -/
def ansiStripFuel : Nat → List Char → List Char
  | 0, l => l
  | _ + 1, [] => []
  | fuel + 1, c :: rest =>
    if c = '\x1b' then
      match rest with
      | [] => [c]
      | d :: rest2 =>
        if isAnsiSingleFinal d then ansiStripFuel fuel rest2
        else if d = '[' then
          match (rest2.dropWhile isCsiParam).dropWhile isCsiInter with
          | f :: rest3 =>
            if isCsiFinal f then ansiStripFuel fuel rest3
            else c :: ansiStripFuel fuel rest
          | [] => c :: ansiStripFuel fuel rest
        else c :: ansiStripFuel fuel rest
    else c :: ansiStripFuel fuel rest

def ansiStrip (s : String) : String :=
  String.mk (ansiStripFuel s.data.length s.data)

/-- `PROGRESS_RE.search(line)`: `\d{1,3}%` matches somewhere in the
line iff some digit is immediately followed by `%` (the one-digit
alternative of the bounded repetition). -/
def hasProgress : List Char → Bool
  | c :: d :: rest => (c.isDigit && d = '%') || hasProgress (d :: rest)
  | _ => false

/-- Per-line cleaning in `clean_output`: keep only the text after the
last `\r`, strip ANSI escapes, then normalize `\r\n`/`\r` to `\n`. -/
def cleanLine (raw : String) : String :=
  let line := if raw.data.contains '\r'
              then (splitOnChar '\r' raw).getLastD ""
              else raw
  let line := ansiStrip line
  normalizeNewlines line

/-- `collapse_progress_bars`: drop every progress-bearing line except
the last of each consecutive run, emitted just before the next
ordinary line (or at the end). -/
def collapse_progress_bars : Option String → List String → List String
  | lastProgress, [] =>
    match lastProgress with
    | some p => [p]
    | none => []
  | lastProgress, line :: rest =>
    if hasProgress line.data then collapse_progress_bars (some line) rest
    else
      match lastProgress with
      | some p => p :: line :: collapse_progress_bars none rest
      | none => line :: collapse_progress_bars none rest

/-- A line is blank when `line.strip()` is falsy. -/
def isBlank (line : String) : Bool :=
  line.data.all pyIsSpace

/-- Cap consecutive blank lines at one, tracking the running blank
count exactly as the source does. -/
def capBlanks : Nat → List String → List String
  | _, [] => []
  | blankCount, line :: rest =>
    if !isBlank line then line :: capBlanks 0 rest
    else if blankCount + 1 ≤ 1 then line :: capBlanks (blankCount + 1) rest
    else capBlanks (blankCount + 1) rest

/-- `clean_output(raw_lines)`. -/
def clean_output (rawLines : List String) : String :=
  let cleaned := rawLines.map cleanLine
  let cleaned := collapse_progress_bars none cleaned
  String.intercalate "\n" (capBlanks 0 cleaned)

/-! ## `silc/core/session.py` — sentinel filtering and the
`run_command` timeout fallback

`SILC_SENTINEL_PATTERN = __SILC_(?:BEGIN|END)_\w+__`. -/

/-- `\w` (word character, ASCII portion). -/
def isWordChar (c : Char) : Bool :=
  c.isAlphanum || c = '_'

/-- Match a literal pattern at the head, returning the remainder. -/
def dropLit : List Char → List Char → Option (List Char)
  | [], l => some l
  | _ :: _, [] => none
  | p :: ps, c :: cs => if c = p then dropLit ps cs else none

/-- After `\w+` has consumed at least one character: search for two
consecutive underscores reachable through word characters. -/
def wordRunHasUU : List Char → Bool
  | '_' :: '_' :: _ => true
  | c :: rest => isWordChar c && wordRunHasUU rest
  | [] => false

/-- `\w+__` starting exactly here: at least one word character, then
(through word characters) two consecutive underscores. -/
def wordThenUU : List Char → Bool
  | [] => false
  | c :: rest => isWordChar c && wordRunHasUU rest

/-- `SILC_SENTINEL_PATTERN.search(line)`: an occurrence of
`__SILC_BEGIN_` or `__SILC_END_` followed by `\w+__`. -/
def containsSentinelAux : List Char → Bool
  | [] => false
  | c :: rest =>
    (match dropLit ("__SILC_BEGIN_".data) (c :: rest) with
     | some after => wordThenUU after
     | none => false) ||
    (match dropLit ("__SILC_END_".data) (c :: rest) with
     | some after => wordThenUU after
     | none => false) ||
    containsSentinelAux rest

def containsSentinel (line : String) : Bool :=
  containsSentinelAux line.data

/-- Worker for `splitOnString`: split on a nonempty literal pattern,
keeping empty fields, with fuel bounded by the input length. -/
def splitOnStrAux (pat : List Char) : Nat → List Char → List Char → List String
  | 0, acc, l => [String.mk (acc.reverse ++ l)]
  | fuel + 1, acc, l =>
    match l with
    | [] => [String.mk acc.reverse]
    | c :: rest =>
      match dropLit pat l with
      | some after => String.mk acc.reverse :: splitOnStrAux pat fuel [] after
      | none => splitOnStrAux pat fuel (c :: acc) rest

/-- Python `str.split(sep)` for a nonempty multi-character separator,
scanning left to right over non-overlapping occurrences. -/
def splitOnString (pat : String) (s : String) : List String :=
  if pat.data = [] then [s]
  else splitOnStrAux pat.data s.data.length [] s.data

/-- The timeout fallback of `run_command` (given the accumulator
already decoded to text): normalize newlines, split the text on the
two-character literal `"\\n"` — exactly as the source's
`fallback_text.split("\\n")` does — drop sentinel-bearing lines, and
clean.  Since the decoded text virtually never contains a literal
backslash-`n`, the split yields a single line. -/
def fallbackOutput (fallbackText : String) : String :=
  let t := normalizeNewlines fallbackText
  let fallbackLines := (splitOnString "\\n" t).filter (fun line => !containsSentinel line)
  clean_output fallbackLines

/-- The cleaning the claim (and the completed-path code at
`session.py:360`) describes: split the normalized text at the newline
character. -/
def claimFallbackOutput (fallbackText : String) : String :=
  let t := normalizeNewlines fallbackText
  let fallbackLines := (splitOnChar '\n' t).filter (fun line => !containsSentinel line)
  clean_output fallbackLines

end Silc

/-- C6: the claim is the intended behaviour, but the source writes
`"\\n".join(lines[-max_lines:]) + "\\n"` — a literal backslash-`n`,
not a newline (`write_session_log` and `read_session_log` in the same
file use the real newline).  On a log holding the three lines
`a`, `b`, `c` with `max_lines = 2`, the rewrite produces the single
line `b\x5cnc\x5cn` instead of the two newline-terminated lines
`b\nc\n` the claim requires; a file at the limit is indeed left
unchanged. -/
theorem C6_rotate_code_bug :
    Silc.rotate_log_content "a\nb\nc" 2 = some "b\\nc\\n" ∧
    Silc.claimRotatedContent "a\nb\nc" 2 = "b\nc\n" ∧
    Silc.rotate_log_content "a\nb\nc" 2 ≠ some (Silc.claimRotatedContent "a\nb\nc" 2) ∧
    (Silc.pySplitlines "b\\nc\\n").length = 1 ∧
    Silc.rotate_log_content "a\nb" 2 = none := by
  refine ⟨?_, ?_, ?_, ?_, ?_⟩ <;> decide

/-- C3: the claim describes the timeout fallback correctly (and the
completed path at `session.py:360` does split at the newline), but the
fallback at `session.py:383` splits on the two-character literal
`"\\n"`.  The whole accumulator therefore stays one line; since it
contains the `__SILC_BEGIN_…__` marker, the sentinel filter drops
everything and the best-effort output is empty instead of the cleaned
line `hello`. -/
theorem C3_timeout_clean_code_bug :
    Silc.fallbackOutput "hello\n__SILC_BEGIN_ab12cd34__\n" = "" ∧
    Silc.claimFallbackOutput "hello\n__SILC_BEGIN_ab12cd34__\n" = "hello\n" ∧
    Silc.fallbackOutput "hello\n__SILC_BEGIN_ab12cd34__\n"
      ≠ Silc.claimFallbackOutput "hello\n__SILC_BEGIN_ab12cd34__\n" := by
  refine ⟨?_, ?_, ?_⟩ <;> decide

namespace Silc

/-! ## `silc/api/server.py` — `_client_is_local` and `_require_token`

Peer addresses coming from a TCP socket are numeric IP literals, so
the string-level front end of `_client_is_local` (the `"localhost"`
comparison and the `%zone` strip, which never fire for socket peers)
reduces to the parsed-address check modelled here.  IPv4 addresses are
four octets, IPv6 addresses eight 16-bit groups. -/

inductive IPAddr where
  | v4 (a b c d : Nat)
  | v6 (g0 g1 g2 g3 g4 g5 g6 g7 : Nat)
deriving DecidableEq, Repr

/-- `ipaddress` loopback test: IPv4 `127.0.0.0/8`; IPv6 `::1`. -/
def IPAddr.isLoopback : IPAddr → Bool
  | .v4 a _ _ _ => a == 127
  | .v6 g0 g1 g2 g3 g4 g5 g6 g7 =>
    g0 == 0 && g1 == 0 && g2 == 0 && g3 == 0 &&
    g4 == 0 && g5 == 0 && g6 == 0 && g7 == 1

/-- `IPv6Address.ipv4_mapped`: `::ffff:a.b.c.d` exposes the embedded
IPv4 address, other addresses have none. -/
def IPAddr.ipv4Mapped : IPAddr → Option IPAddr
  | .v6 0 0 0 0 0 65535 g6 g7 =>
    some (.v4 (g6 / 256) (g6 % 256) (g7 / 256) (g7 % 256))
  | _ => none

/-- `_client_is_local`: no peer is never local; otherwise loopback, or
an IPv4-mapped IPv6 address whose embedded IPv4 address is loopback. -/
def clientIsLocal : Option IPAddr → Bool
  | none => false
  | some addr =>
    addr.isLoopback ||
      (match addr.ipv4Mapped with
       | some mapped => mapped.isLoopback
       | none => false)

/-- Outcome of the HTTP token gate: pass, or an `HTTPException` with a
status code and detail message. -/
inductive GateResult where
  | allow
  | reject (statusCode : Nat) (detail : String)
deriving DecidableEq, Repr

/-- `_require_token`: no (or empty) session token allows; a local
client allows; otherwise the `Authorization` header is required, must
strip-split into exactly `[scheme, value]` with `scheme.lower() ==
"bearer"`, and the stripped value must equal the token. -/
def requireToken (apiToken : Option String) (client : Option IPAddr)
    (authHeader : Option String) : GateResult :=
  match apiToken with
  | none => .allow
  | some token =>
    if token = "" then .allow
    else if clientIsLocal client then .allow
    else
      match authHeader with
      | none => .reject 401 "Missing API token"
      | some h =>
        if h = "" then .reject 401 "Missing API token"
        else
          match pySplitOnce ' ' (pyStrip h) with
          | [p0, p1] =>
            if pyLower p0 = "bearer" then
              if pyStrip p1 ≠ token then .reject 403 "Invalid API token"
              else .allow
            else .reject 401 "Invalid Authorization header"
          | _ => .reject 401 "Invalid Authorization header"

/-- The bearer value carried by an `Authorization` header, when the
header is present and of the (case-insensitive, stripped) form
`Bearer <value>`; `none` for a missing or malformed header.  Extracted
from the same parse `_require_token` performs. -/
def bearerValue? (authHeader : Option String) : Option String :=
  match authHeader with
  | none => none
  | some h =>
    if h = "" then none
    else
      match pySplitOnce ' ' (pyStrip h) with
      | [p0, p1] => if pyLower p0 = "bearer" then some (pyStrip p1) else none
      | _ => none

end Silc

/-- C5: the token gate allows every request when no token is set;
allows loopback (or IPv4-mapped loopback) peers even with a token set;
and otherwise rejects 401 exactly when no bearer value can be parsed
from the `Authorization` header, rejects 403 when the bearer value
differs from the token, and allows when it matches. -/
theorem C5_token_gate (tok : Option String) (client : Option Silc.IPAddr)
    (hdr : Option String) :
    (tok = none → Silc.requireToken tok client hdr = .allow) ∧
    (Silc.clientIsLocal client = true → Silc.requireToken tok client hdr = .allow) ∧
    (∀ t, tok = some t → t ≠ "" → Silc.clientIsLocal client = false →
      ((Silc.bearerValue? hdr = none →
          ∃ d, Silc.requireToken tok client hdr = .reject 401 d) ∧
       (∀ v, Silc.bearerValue? hdr = some v →
          ((v ≠ t → Silc.requireToken tok client hdr = .reject 403 "Invalid API token") ∧
           (v = t → Silc.requireToken tok client hdr = .allow))))) := by
  refine ⟨?_, ?_, ?_⟩
  · rintro rfl
    rfl
  · intro hlocal
    cases tok with
    | none => rfl
    | some t =>
      by_cases ht : t = ""
      · simp [Silc.requireToken, ht]
      · simp [Silc.requireToken, ht, hlocal]
  · rintro t rfl ht hlocal
    have hgate : Silc.requireToken (some t) client hdr =
        match Silc.bearerValue? hdr with
        | none =>
          match hdr with
          | none => Silc.GateResult.reject 401 "Missing API token"
          | some h =>
            if h = "" then Silc.GateResult.reject 401 "Missing API token"
            else Silc.GateResult.reject 401 "Invalid Authorization header"
        | some v =>
          if v ≠ t then Silc.GateResult.reject 403 "Invalid API token"
          else Silc.GateResult.allow := by
      cases hdr with
      | none => simp [Silc.requireToken, Silc.bearerValue?, ht, hlocal]
      | some h =>
        by_cases hh : h = ""
        · simp [Silc.requireToken, Silc.bearerValue?, ht, hlocal, hh]
        · cases hp : Silc.pySplitOnce ' ' (Silc.pyStrip h) with
          | nil => simp [Silc.requireToken, Silc.bearerValue?, ht, hlocal, hh, hp]
          | cons p0 ps =>
            cases ps with
            | nil => simp [Silc.requireToken, Silc.bearerValue?, ht, hlocal, hh, hp]
            | cons p1 ps2 =>
              cases ps2 with
              | nil =>
                by_cases hb : Silc.pyLower p0 = "bearer"
                · by_cases hv : Silc.pyStrip p1 ≠ t <;>
                    simp [Silc.requireToken, Silc.bearerValue?, ht, hlocal, hh, hp, hb, hv]
                · simp [Silc.requireToken, Silc.bearerValue?, ht, hlocal, hh, hp, hb]
              | cons p2 ps3 =>
                simp [Silc.requireToken, Silc.bearerValue?, ht, hlocal, hh, hp]
    constructor
    · intro hnone
      rw [hgate, hnone]
      cases hdr with
      | none => exact ⟨"Missing API token", rfl⟩
      | some h =>
        by_cases hh : h = ""
        · exact ⟨"Missing API token", by simp [hh]⟩
        · exact ⟨"Invalid Authorization header", by simp [hh]⟩
    · intro v hv
      rw [hgate, hv]
      constructor
      · intro hne
        simp [hne]
      · intro heq
        simp [heq]

/-- Witness for C5: a set token `"secret"`, a non-loopback peer
`8.8.8.8`, and the three header situations — absent (401), wrong
bearer value (403), matching bearer value (allow). -/
theorem C5_token_gate_witness :
    (∃ d, Silc.requireToken (some "secret") (some (.v4 8 8 8 8)) none
        = .reject 401 d) ∧
    Silc.requireToken (some "secret") (some (.v4 8 8 8 8)) (some "Bearer wrong")
        = .reject 403 "Invalid API token" ∧
    Silc.requireToken (some "secret") (some (.v4 8 8 8 8)) (some "Bearer secret")
        = .allow ∧
    Silc.requireToken (some "secret") (some (.v4 127 0 0 1)) none = .allow := by
  refine ⟨?_, ?_, ?_, ?_⟩
  · exact ((C5_token_gate (some "secret") (some (.v4 8 8 8 8)) none).2.2
      "secret" rfl (by decide) (by decide)).1 (by decide)
  · exact (((C5_token_gate (some "secret") (some (.v4 8 8 8 8)) (some "Bearer wrong")).2.2
      "secret" rfl (by decide) (by decide)).2 "wrong" (by decide)).1 (by decide)
  · exact (((C5_token_gate (some "secret") (some (.v4 8 8 8 8)) (some "Bearer secret")).2.2
      "secret" rfl (by decide) (by decide)).2 "secret" (by decide)).2 rfl
  · exact (C5_token_gate (some "secret") (some (.v4 127 0 0 1)) none).2.1 (by decide)

namespace Silc

/-! ## `silc/core/session.py` — `SilcSession.close`

The session state visible to `close` and its externally visible
effects.  Background tasks are identified by opaque ids.  Every await
inside `close` is wrapped in `try`/`except` catching `CancelledError`,
`TimeoutError` and `Exception`, so the operation is total ("never
raises") and is modelled as a plain function. -/

structure SessionState where
  closed : Bool
  tuiActive : Bool
  readTask : Option Nat
  gcTask : Option Nat
deriving DecidableEq, Repr

/-- The externally visible actions a `close()` call performs: which
tasks it cancels and awaits, and how many times it kills the PTY. -/
structure CloseEffects where
  cancelledTasks : List Nat
  ptyKills : Nat
  awaitedTasks : List Nat
deriving DecidableEq, Repr

/-- The effects of a call that returns immediately. -/
def noEffects : CloseEffects := ⟨[], 0, []⟩

/-- `SilcSession.close`: an early return when already closed;
otherwise set `closed`, clear `tui_active`, cancel the read and GC
tasks, kill the PTY, await each task with a 1-second bound, and null
out both task handles. -/
def close (s : SessionState) : SessionState × CloseEffects :=
  if s.closed then (s, noEffects)
  else
    let tasks := (match s.readTask with | some t => [t] | none => []) ++
                 (match s.gcTask with | some t => [t] | none => [])
    ({ closed := true, tuiActive := false, readTask := none, gcTask := none },
     { cancelledTasks := tasks, ptyKills := 1, awaitedTasks := tasks })

end Silc

/-- C8: after a completed `close()`, a second `close()` is a no-op: it
returns the state unchanged, cancels no task, kills the PTY zero
times, and awaits nothing (and, the model being a total function,
raises nothing). -/
theorem C8_close_idempotent (s : Silc.SessionState) :
    Silc.close (Silc.close s).1 = ((Silc.close s).1, Silc.noEffects) := by
  by_cases h : s.closed
  · simp [Silc.close, h]
  · simp [Silc.close, h]

namespace Silc

/-! ## `silc/stream/deduplicator.py` — `LineDeduplicator`

`normalize_line` strips SGR escapes (`\x1b\[[0-9;]*m`), collapses
whitespace, lowercases and strips; the exact-match cache is a Python
`set`, modelled as a `Finset String`.  `compute_diff` touches the
cache only through `_update_cache` (and not at all when `new_lines` is
empty): the two filtering stages that produce its return value never
modify it, so the cache evolution is modelled on its own. -/

/-- `re.sub(r"\x1b\[[0-9;]*m", "", ·)`: remove SGR sequences, fuel
bounded by the input length. -/
def sgrStripFuel : Nat → List Char → List Char
  | 0, l => l
  | _ + 1, [] => []
  | fuel + 1, c :: rest =>
    if c = '\x1b' then
      match rest with
      | '[' :: rest2 =>
        match rest2.dropWhile (fun ch => ch.isDigit || ch = ';') with
        | 'm' :: rest3 => sgrStripFuel fuel rest3
        | _ => c :: sgrStripFuel fuel rest
      | _ => c :: sgrStripFuel fuel rest
    else c :: sgrStripFuel fuel rest

/-- `LineDeduplicator.normalize_line`: strip SGR escapes, collapse
whitespace (`" ".join(line.split())`), lowercase, strip. -/
def normalize_line (line : String) : String :=
  if line = "" then ""
  else
    let l1 := String.mk (sgrStripFuel line.data.length line.data)
    let l2 := pyLower (String.intercalate " " (pyWords l1))
    pyStrip l2

/-- `LineDeduplicator._update_cache`: clear the cache when it already
exceeds `2 * window_size`, then add the normalized forms of the last
`window_size` existing lines (skipping empty normalizations). -/
def updateCache (windowSize : Nat) (cache : Finset String)
    (existingLines : List String) : Finset String :=
  let cache := if cache.card > windowSize * 2 then (∅ : Finset String) else cache
  let linesToCache := pySliceLast windowSize existingLines
  linesToCache.foldl
    (fun c line =>
      let n := normalize_line line
      if n ≠ "" then insert n c else c)
    cache

/-- The effect of one `compute_diff(existing, new)` call on the exact
cache: untouched when `new` is empty (the early return precedes
`_update_cache`), else `_update_cache existing`. -/
def computeDiffCache (windowSize : Nat) (cache : Finset String)
    (existing newLines : List String) : Finset String :=
  if newLines = [] then cache else updateCache windowSize cache existing

/-- The cache after a sequence of `compute_diff` calls (given as
`(existing_lines, new_lines)` pairs) on a fresh deduplicator. -/
def cacheAfter (windowSize : Nat) (calls : List (List String × List String)) :
    Finset String :=
  calls.foldl (fun c p => computeDiffCache windowSize c p.1 p.2) ∅

theorem foldl_insertNormalized_card_le (l : List String) (c : Finset String) :
    (l.foldl
      (fun c line =>
        if normalize_line line ≠ "" then insert (normalize_line line) c else c)
      c).card ≤ c.card + l.length := by
  induction l generalizing c with
  | nil => simp
  | cons line rest ih =>
    simp only [List.foldl_cons, List.length_cons]
    by_cases hn : normalize_line line ≠ ""
    · calc _ ≤ (insert (normalize_line line) c).card + rest.length := by
              simpa [hn] using ih (insert (normalize_line line) c)
        _ ≤ c.card + 1 + rest.length := by
              have := Finset.card_insert_le (normalize_line line) c
              omega
        _ = c.card + (rest.length + 1) := by omega
    · calc _ ≤ c.card + rest.length := by simpa [hn] using ih c
        _ ≤ c.card + (rest.length + 1) := by omega

theorem pySliceLast_length_le {α : Type} (n : Nat) (hn : 1 ≤ n) (l : List α) :
    (pySliceLast n l).length ≤ n := by
  unfold pySliceLast
  have hne : ¬ n = 0 := by omega
  simp only [if_neg hne, List.length_drop]
  omega

theorem updateCache_card_le (W : Nat) (hW : 1 ≤ W) (cache : Finset String)
    (h : cache.card ≤ 3 * W) (existing : List String) :
    (updateCache W cache existing).card ≤ 3 * W := by
  unfold updateCache
  by_cases hover : cache.card > W * 2
  · simp only [if_pos hover]
    have h1 := foldl_insertNormalized_card_le (pySliceLast W existing) ∅
    have h2 := pySliceLast_length_le W hW existing
    simp only [Finset.card_empty] at h1
    omega
  · simp only [if_neg hover]
    have h1 := foldl_insertNormalized_card_le (pySliceLast W existing) cache
    have h2 := pySliceLast_length_le W hW existing
    omega

end Silc

/-- C9 counterexample: with window size `W = 1` the cache can reach
three entries — more than `2 × W` — after three `compute_diff` calls
whose existing lines are `["a"]`, `["b"]`, `["c"]`: the overflow check
`len(cache) > 2 × W` runs only at the start of the next call, so a
cache at exactly `2 × W` still grows by up to `W` more entries. -/
theorem C9_cache_counterexample :
    (Silc.cacheAfter 1 [([ "a" ], ["x"]), ([ "b" ], ["x"]), ([ "c" ], ["x"])]).card = 3 ∧
    ¬ (Silc.cacheAfter 1 [([ "a" ], ["x"]), ([ "b" ], ["x"]), ([ "c" ], ["x"])]).card ≤ 2 * 1 := by
  refine ⟨?_, ?_⟩ <;> decide

/-- C9 (amended): for every deduplicator with window size `W ≥ 1` and
every sequence of `compute_diff` calls, the exact cache holds at most
`3 × W` entries after every call: a call that starts with more than
`2 × W` entries clears the cache and rebuilds it from at most `W`
recent lines, and any other call adds at most `W` entries to a cache
of at most `2 × W`. -/
theorem C9_cache_bound (W : Nat) (hW : 1 ≤ W)
    (calls : List (List String × List String)) :
    (Silc.cacheAfter W calls).card ≤ 3 * W := by
  suffices h : ∀ (c : Finset String), c.card ≤ 3 * W →
      (calls.foldl (fun c p => Silc.computeDiffCache W c p.1 p.2) c).card ≤ 3 * W by
    exact h ∅ (by simp)
  induction calls with
  | nil => intro c hc; simpa using hc
  | cons p rest ih =>
    intro c hc
    simp only [List.foldl_cons]
    apply ih
    unfold Silc.computeDiffCache
    by_cases hnew : p.2 = []
    · simpa [hnew] using hc
    · simpa [hnew] using Silc.updateCache_card_le W hW c hc p.1

/-- Witness for C9's amended bound at `W = 1` on the counterexample's
call sequence: the cache holds 3 entries, and `3 ≤ 3 × 1`. -/
theorem C9_cache_bound_witness :
    1 ≤ 1 ∧
    (Silc.cacheAfter 1 [([ "a" ], ["x"]), ([ "b" ], ["x"]), ([ "c" ], ["x"])]).card ≤ 3 * 1 :=
  ⟨by decide, C9_cache_bound 1 (by decide) [([ "a" ], ["x"]), ([ "b" ], ["x"]), ([ "c" ], ["x"])]⟩

namespace Silc

/-! ## `silc/core/session.py` — the `run_command` wait loop

The loop body between taking the cursor snapshot and returning is
modelled as a step function over the accumulator state.  Each poll of
`buffer.get_since` contributes one chunk (possibly empty — the code
then only sleeps); the deadline expiring after `n` polls corresponds
to running the loop on a list of `n` chunks, with the single
past-deadline `get_since` drain supplied as `finalChunk`.  The field
`interruptSent` records whether the body wrote the interrupt byte
`0x03` to the PTY.  On the timeout path the code cleans the decoded
accumulator (`fallbackOutput` above); here the raw fallback bytes are
returned in `outBytes` and `exitCode` is unused. -/

def MAX_COLLECTED_BYTES : Nat := 5 * 1024 * 1024

/-- `f"Command output exceeded {MAX_COLLECTED_BYTES} bytes limit"`. -/
def capMsg : String := "Command output exceeded 5242880 bytes limit"

/-- `f"Command did not complete in {timeout}s"`. -/
def timeoutMsg (timeout : Nat) : String :=
  "Command did not complete in " ++ toString timeout ++ "s"

/-- `bytes.find`: index of the first occurrence of `pat`. -/
def findSub (pat : List Nat) : List Nat → Option Nat
  | [] => if pat = [] then some 0 else none
  | c :: rest =>
    if pat.isPrefixOf (c :: rest) then some 0
    else (findSub pat rest).map (· + 1)

/-- Index of the first CR or LF byte, if any. -/
def findNl : List Nat → Option Nat
  | [] => none
  | b :: rest =>
    if b == 10 || b == 13 then some 0 else (findNl rest).map (· + 1)

/-- `bytes.decode("ascii", errors="ignore")`: non-ASCII bytes are
dropped. -/
def asciiIgnore (l : List Nat) : List Char :=
  (l.filter (fun b => decide (b < 128))).map Char.ofNat

/-- Decimal value of a digit string. -/
def digitsVal (l : List Char) : Nat :=
  l.foldl (fun acc c => acc * 10 + (c.toNat - 48)) 0

/-- Python `int(s)` on a string of digits and `-` characters: a
leading minus followed by at least one digit, or at least one digit,
and nothing else; anything else raises (here: `none`). -/
def pyInt? : List Char → Option Int
  | [] => none
  | '-' :: rest =>
    if rest ≠ [] && rest.all Char.isDigit then some (-(digitsVal rest : Int)) else none
  | l =>
    if l.all Char.isDigit then some ((digitsVal l : Int)) else none

/-- Scanner for one OSC body: `[^\x07\x1b]*` then `\x07` or
`\x1b\x5c`; returns the remainder after the terminator, `none` when
the sequence never terminates. -/
def oscScan : List Nat → Option (List Nat)
  | [] => none
  | 7 :: rest => some rest
  | 27 :: 92 :: rest => some rest
  | 27 :: _ => none
  | _ :: rest => oscScan rest

/-- `OSC_BYTE_PATTERN.sub(b"", ·)`: remove every
`\x1b\]...\x07`/`\x1b\]...\x1b\\` sequence, fuel bounded by the input
length. -/
def oscStripFuel : Nat → List Nat → List Nat
  | 0, l => l
  | _ + 1, [] => []
  | fuel + 1, b :: rest =>
    if b = 27 then
      match rest with
      | 93 :: rest2 =>
        match oscScan rest2 with
        | some rest3 => oscStripFuel fuel rest3
        | none => b :: oscStripFuel fuel rest
      | _ => b :: oscStripFuel fuel rest
    else b :: oscStripFuel fuel rest

def oscStrip (l : List Nat) : List Nat :=
  oscStripFuel l.length l

/-- `__SILC_BEGIN_<token>__` as bytes. -/
def beginMarkOf (token : String) : List Nat :=
  ("__SILC_BEGIN_" ++ token ++ "__").data.map Char.toNat

/-- `__SILC_END_<token>__:` as bytes. -/
def endMarkOf (token : String) : List Nat :=
  ("__SILC_END_" ++ token ++ "__:").data.map Char.toNat

/-- The mutable loop state: the `collected` accumulator and the
`started` flag. -/
structure RunState where
  collected : List Nat
  started : Bool
deriving DecidableEq, Repr

/-- The dictionary `run_command` returns, restricted to the keys the
claims speak about, plus the interrupt effect. -/
structure RunResult where
  status : String
  exitCode : Int
  errMsg : String
  interruptSent : Bool
  outBytes : List Nat
deriving DecidableEq, Repr

inductive StepOut where
  | cont (st : RunState)
  | done (r : RunResult)
deriving DecidableEq, Repr

/-- One iteration of the wait loop on a freshly read chunk: skip empty
chunks; extend the accumulator; return the capped-output error (with
the Ctrl-C write) when it exceeds `MAX_COLLECTED_BYTES`; before the
BEGIN marker is seen, either trim the accumulator to the marker's
length and continue, or consume through the marker and its leading
CR/LF; then search for the END prefix, and once a CR/LF terminates the
exit-code text, parse it and return the completed result with the
OSC-stripped output bytes. -/
def runStep (beginMark endMark : List Nat) (st : RunState) (chunk : List Nat) : StepOut :=
  if chunk = [] then .cont st
  else
    let collected := st.collected ++ chunk
    if collected.length > MAX_COLLECTED_BYTES then
      .done { status := "error", exitCode := -1, errMsg := capMsg,
              interruptSent := true, outBytes := [] }
    else
      let afterBegin : Option (List Nat) :=
        if st.started then some collected
        else
          match findSub beginMark collected with
          | none => none
          | some i =>
            some ((collected.drop (i + beginMark.length)).dropWhile
                    (fun b => b == 10 || b == 13))
      match afterBegin with
      | none =>
        let excess := collected.length - beginMark.length
        .cont { collected := if excess > 0 then collected.drop excess else collected,
                started := false }
      | some collected2 =>
        match findSub endMark collected2 with
        | none => .cont { collected := collected2, started := true }
        | some ei =>
          let tailBytes := collected2.drop (ei + endMark.length)
          match findNl tailBytes with
          | none => .cont { collected := collected2, started := true }
          | some ni =>
            let exitText := asciiIgnore (tailBytes.take ni)
            let exitDigits := exitText.filter (fun c => c.isDigit || c == '-')
            let exitCode : Int :=
              match pyInt? exitDigits with
              | some v => v
              | none => 0
            .done { status := "completed", exitCode := exitCode, errMsg := "",
                    interruptSent := false,
                    outBytes := oscStrip (collected2.take ei) }

/-- The wait loop over the chunks read before the deadline; when they
are exhausted the deadline has passed and the timeout fallback result
is produced from the accumulator plus the final `get_since` drain. -/
def runLoop (beginMark endMark : List Nat) (timeout : Nat) (st : RunState)
    (finalChunk : List Nat) : List (List Nat) → RunResult
  | [] =>
    { status := "timeout", exitCode := 0, errMsg := timeoutMsg timeout,
      interruptSent := false, outBytes := st.collected ++ finalChunk }
  | chunk :: rest =>
    match runStep beginMark endMark st chunk with
    | .cont st2 => runLoop beginMark endMark timeout st2 finalChunk rest
    | .done r => r

/-- The accumulator sizes observed by the cap check: for every
processed nonempty chunk, the length of `collected` right after
`collected.extend(chunk)` (recording stops once an iteration
returns). -/
def collectedSizes (beginMark endMark : List Nat) (st : RunState) :
    List (List Nat) → List Nat
  | [] => []
  | chunk :: rest =>
    if chunk = [] then collectedSizes beginMark endMark st rest
    else
      (st.collected.length + chunk.length) ::
        (match runStep beginMark endMark st chunk with
         | .cont st2 => collectedSizes beginMark endMark st2 rest
         | .done _ => [])

theorem runLoop_cap_of_oversize (beginMark endMark : List Nat) (timeout : Nat)
    (finalChunk : List Nat) (chunks : List (List Nat)) (st : RunState)
    (h : ∃ sz ∈ collectedSizes beginMark endMark st chunks, MAX_COLLECTED_BYTES < sz) :
    runLoop beginMark endMark timeout st finalChunk chunks =
      { status := "error", exitCode := -1, errMsg := capMsg,
        interruptSent := true, outBytes := [] } := by
  induction chunks generalizing st with
  | nil => simp [collectedSizes] at h
  | cons chunk rest ih =>
    simp only [collectedSizes] at h
    by_cases hc : chunk = []
    · rw [if_pos hc] at h
      have hstep : runStep beginMark endMark st chunk = .cont st := by
        simp [runStep, hc]
      simp only [runLoop, hstep]
      exact ih st h
    · rw [if_neg hc] at h
      by_cases hbig : MAX_COLLECTED_BYTES < st.collected.length + chunk.length
      · have hlen : (st.collected ++ chunk).length > MAX_COLLECTED_BYTES := by
          rw [List.length_append]; omega
        have hstep : runStep beginMark endMark st chunk =
            .done { status := "error", exitCode := -1, errMsg := capMsg,
                    interruptSent := true, outBytes := [] } := by
          simp only [runStep, if_neg hc]
          rw [if_pos hlen]
        simp only [runLoop, hstep]
      · cases hstep : runStep beginMark endMark st chunk with
        | done r =>
          exfalso
          rw [hstep] at h
          obtain ⟨sz, hmem, hsz⟩ := h
          rcases List.mem_cons.mp hmem with h1 | h2
          · omega
          · simp at h2
        | cont st2 =>
          rw [hstep] at h
          obtain ⟨sz, hmem, hsz⟩ := h
          rcases List.mem_cons.mp hmem with h1 | h2
          · omega
          · simp only [runLoop, hstep]
            exact ih st2 ⟨sz, h2, hsz⟩

end Silc

/-- C4: whenever the accumulator collected while waiting for the
markers exceeds 5 MiB (5 × 1024 × 1024 bytes) at the cap check, the
call writes the interrupt byte `0x03` to the PTY and returns a result
with status `"error"` and the exceeded-output-limit message — never a
`"completed"` result. -/
theorem C4_output_cap (token : String) (timeout : Nat) (finalChunk : List Nat)
    (chunks : List (List Nat))
    (h : ∃ sz ∈ Silc.collectedSizes (Silc.beginMarkOf token) (Silc.endMarkOf token)
            ⟨[], false⟩ chunks, 5 * 1024 * 1024 < sz) :
    (Silc.runLoop (Silc.beginMarkOf token) (Silc.endMarkOf token) timeout
        ⟨[], false⟩ finalChunk chunks).status = "error" ∧
    (Silc.runLoop (Silc.beginMarkOf token) (Silc.endMarkOf token) timeout
        ⟨[], false⟩ finalChunk chunks).interruptSent = true ∧
    (Silc.runLoop (Silc.beginMarkOf token) (Silc.endMarkOf token) timeout
        ⟨[], false⟩ finalChunk chunks).errMsg
      = "Command output exceeded 5242880 bytes limit" ∧
    (Silc.runLoop (Silc.beginMarkOf token) (Silc.endMarkOf token) timeout
        ⟨[], false⟩ finalChunk chunks).status ≠ "completed" := by
  have hres := Silc.runLoop_cap_of_oversize (Silc.beginMarkOf token)
    (Silc.endMarkOf token) timeout finalChunk chunks ⟨[], false⟩ h
  rw [hres]
  refine ⟨rfl, rfl, rfl, by decide⟩

/-- Auxiliary: the first recorded accumulator size for a nonempty
first chunk. -/
theorem collectedSizes_head_mem (beginMark endMark : List Nat) (st : Silc.RunState)
    (chunk : List Nat) (rest : List (List Nat)) (hc : chunk ≠ []) :
    st.collected.length + chunk.length
      ∈ Silc.collectedSizes beginMark endMark st (chunk :: rest) := by
  unfold Silc.collectedSizes
  rw [if_neg hc]
  exact List.mem_cons_self _ _

/-- Witness for C4: the token `ab12cd34` and a single chunk of
`5 × 1024 × 1024 + 1` zero bytes trips the cap. -/
theorem C4_output_cap_witness :
    (∃ sz ∈ Silc.collectedSizes (Silc.beginMarkOf "ab12cd34") (Silc.endMarkOf "ab12cd34")
        ⟨[], false⟩ [List.replicate (5 * 1024 * 1024 + 1) 0], 5 * 1024 * 1024 < sz) ∧
    (Silc.runLoop (Silc.beginMarkOf "ab12cd34") (Silc.endMarkOf "ab12cd34") 600
        ⟨[], false⟩ [] [List.replicate (5 * 1024 * 1024 + 1) 0]).status = "error" ∧
    (Silc.runLoop (Silc.beginMarkOf "ab12cd34") (Silc.endMarkOf "ab12cd34") 600
        ⟨[], false⟩ [] [List.replicate (5 * 1024 * 1024 + 1) 0]).interruptSent = true := by
  have hne : (List.replicate (5 * 1024 * 1024 + 1) (0 : Nat)) ≠ [] := by
    intro hcontra
    have hl := congrArg List.length hcontra
    rw [List.length_replicate, List.length_nil] at hl
    exact absurd hl (by norm_num)
  have hmem := collectedSizes_head_mem (Silc.beginMarkOf "ab12cd34")
    (Silc.endMarkOf "ab12cd34") ⟨[], false⟩
    (List.replicate (5 * 1024 * 1024 + 1) 0) [] hne
  rw [List.length_replicate] at hmem
  have h : ∃ sz ∈ Silc.collectedSizes (Silc.beginMarkOf "ab12cd34")
      (Silc.endMarkOf "ab12cd34") ⟨[], false⟩
      [List.replicate (5 * 1024 * 1024 + 1) 0], 5 * 1024 * 1024 < sz :=
    ⟨_, hmem, by norm_num⟩
  have hmain := C4_output_cap "ab12cd34" 600 [] [List.replicate (5 * 1024 * 1024 + 1) 0] h
  exact ⟨h, hmain.1, hmain.2.1⟩

namespace Silc

/-! ## `silc/daemon/registry.py` — `SessionRegistry`

Python dicts with insertion order are modelled as association lists
whose keys are unique (part of the well-formedness predicate below);
`datetime` values are modelled as integral seconds, so
`(now - last_access).total_seconds() > timeout_seconds` becomes an
`Int` comparison. -/

/-- Dictionary lookup on an association list (first match). -/
def alookup {α β : Type} [DecidableEq α] (k : α) : List (α × β) → Option β
  | [] => none
  | (k2, v) :: rest => if k2 = k then some v else alookup k rest

structure SessionEntry where
  port : Nat
  name : String
  sessionId : String
  shellType : String
  createdAt : Int
  lastAccess : Int
deriving DecidableEq, Repr

structure SessionRegistry where
  sessions : List (Nat × SessionEntry)
  nameIndex : List (String × Nat)
deriving DecidableEq, Repr

/-- `SessionRegistry.remove`: pop the port from the session dict and,
when an entry was there, pop its name from the name index. -/
def SessionRegistry.remove (r : SessionRegistry) (port : Nat) :
    SessionRegistry × Option SessionEntry :=
  match alookup port r.sessions with
  | none => (r, none)
  | some e =>
    ({ sessions := r.sessions.filter (fun p => p.1 != port),
       nameIndex := r.nameIndex.filter (fun q => q.1 != e.name) }, some e)

/-- `SessionRegistry.get`: look up by port and touch `last_access`
(the entry object is mutated in place, so the stored entry and the
returned one agree). -/
def SessionRegistry.get (r : SessionRegistry) (port : Nat) (now : Int) :
    SessionRegistry × Option SessionEntry :=
  match alookup port r.sessions with
  | none => (r, none)
  | some e =>
    let e2 := { e with lastAccess := now }
    ({ r with sessions := r.sessions.map (fun p => if p.1 = port then (p.1, e2) else p) },
     some e2)

/-- `SessionRegistry.get_by_name`: resolve the name, then `get`. -/
def SessionRegistry.get_by_name (r : SessionRegistry) (name : String) (now : Int) :
    SessionRegistry × Option SessionEntry :=
  match alookup name r.nameIndex with
  | none => (r, none)
  | some port => r.get port now

/-- Removing each port of a list in turn (the second phase of
`cleanup_timeout`). -/
def removeAll (r : SessionRegistry) (ps : List Nat) : SessionRegistry :=
  ps.foldl (fun acc q => (acc.remove q).1) r

/-- `SessionRegistry.cleanup_timeout`: collect the ports of all
entries idle strictly longer than `timeout_seconds`, then remove each;
return the new registry together with the collected ports. -/
def SessionRegistry.cleanup_timeout (r : SessionRegistry) (now : Int)
    (timeoutSeconds : Int) : SessionRegistry × List Nat :=
  let toRemove := (r.sessions.filter
      (fun p => decide (timeoutSeconds < now - p.2.lastAccess))).map Prod.fst
  (removeAll r toRemove, toRemove)

/-- Well-formedness of a registry as maintained by `add`/`remove`:
unique ports, unique names, and the two indices consistent. -/
def SessionRegistry.WF (r : SessionRegistry) : Prop :=
  (r.sessions.map Prod.fst).Nodup ∧
  (r.nameIndex.map Prod.fst).Nodup ∧
  (∀ q ∈ r.sessions, q.2.port = q.1 ∧ (q.2.name, q.1) ∈ r.nameIndex) ∧
  (∀ q ∈ r.nameIndex, ∃ p ∈ r.sessions, p.1 = q.2 ∧ p.2.name = q.1)

instance (r : SessionRegistry) : Decidable r.WF := by
  unfold SessionRegistry.WF
  infer_instance

theorem alookup_filter_keyNe {α β : Type} [DecidableEq α] (k q : α) (l : List (α × β)) :
    alookup k (l.filter (fun p => p.1 != q)) = if k = q then none else alookup k l := by
  induction l with
  | nil => by_cases h : k = q <;> simp [alookup, h]
  | cons p rest ih =>
    rw [List.filter_cons]
    by_cases hpq : p.1 = q
    · have hb : (p.1 != q) = false := by simp [hpq]
      rw [hb, if_neg (by simp : ¬(false = true))]
      rw [ih]
      by_cases hkq : k = q
      · rw [if_pos hkq, if_pos hkq]
      · rw [if_neg hkq, if_neg hkq]
        have hpk : ¬ p.1 = k := fun hh => hkq (by rw [← hh]; exact hpq)
        simp [alookup, hpk]
    · have hb : (p.1 != q) = true := by simp [hpq]
      rw [hb, if_pos rfl]
      by_cases hpk : p.1 = k
      · have hkq : ¬ k = q := fun hh => hpq (by rw [hpk, hh])
        simp [alookup, hpk, hkq]
      · simp only [alookup, if_neg hpk]
        rw [ih]

theorem alookup_filter_of_none {α β : Type} [DecidableEq α] (k : α) (f : α × β → Bool)
    (l : List (α × β)) (h : alookup k l = none) :
    alookup k (l.filter f) = none := by
  induction l with
  | nil => simp [alookup]
  | cons p rest ih =>
    simp only [alookup] at h
    by_cases hpk : p.1 = k
    · rw [if_pos hpk] at h; exact absurd h (by simp)
    · rw [if_neg hpk] at h
      rw [List.filter_cons]
      by_cases hf : f p = true
      · rw [if_pos hf]
        simp only [alookup, if_neg hpk]
        exact ih h
      · rw [if_neg hf]
        exact ih h

theorem mem_of_alookup_eq_some {α β : Type} [DecidableEq α] {k : α} {v : β}
    {l : List (α × β)} (h : alookup k l = some v) : (k, v) ∈ l := by
  induction l with
  | nil => simp [alookup] at h
  | cons p rest ih =>
    simp only [alookup] at h
    by_cases hpk : p.1 = k
    · rw [if_pos hpk] at h
      injection h with h2
      have hp : (k, v) = p := by
        calc (k, v) = (p.1, p.2) := by rw [hpk, h2]
          _ = p := rfl
      exact List.mem_cons.mpr (Or.inl hp)
    · rw [if_neg hpk] at h
      exact List.mem_cons_of_mem _ (ih h)

theorem alookup_eq_some_of_mem {α β : Type} [DecidableEq α] {l : List (α × β)}
    (hnd : (l.map Prod.fst).Nodup) {k : α} {v : β} (h : (k, v) ∈ l) :
    alookup k l = some v := by
  induction l with
  | nil => simp at h
  | cons p rest ih =>
    simp only [List.map_cons, List.nodup_cons] at hnd
    rcases List.mem_cons.mp h with h1 | h2
    · rw [← h1]
      simp [alookup]
    · have hpk : ¬ p.1 = k := by
        intro hk
        exact hnd.1 (hk ▸ (List.mem_map.mpr ⟨(k, v), h2, rfl⟩))
      simp only [alookup, if_neg hpk]
      exact ih hnd.2 h2

theorem keyUnique {α β : Type} [DecidableEq α] {l : List (α × β)}
    (hnd : (l.map Prod.fst).Nodup) {n : α} {v w : β}
    (h1 : (n, v) ∈ l) (h2 : (n, w) ∈ l) : v = w := by
  have e1 := alookup_eq_some_of_mem hnd h1
  have e2 := alookup_eq_some_of_mem hnd h2
  rw [e1] at e2
  injection e2

end Silc

namespace Silc

theorem alookup_remove_sessions (r : SessionRegistry) (q p : Nat) :
    alookup p ((r.remove q).1).sessions = if p = q then none else alookup p r.sessions := by
  cases hq : alookup q r.sessions with
  | none =>
    simp only [SessionRegistry.remove, hq]
    by_cases hpq : p = q
    · rw [if_pos hpq, hpq, hq]
    · rw [if_neg hpq]
  | some e =>
    simp only [SessionRegistry.remove, hq]
    exact alookup_filter_keyNe p q r.sessions

theorem alookup_remove_name_none (r : SessionRegistry) (q : Nat) (n : String)
    (h : alookup n r.nameIndex = none) :
    alookup n ((r.remove q).1).nameIndex = none := by
  cases hq : alookup q r.sessions with
  | none => simp only [SessionRegistry.remove, hq]; exact h
  | some e =>
    simp only [SessionRegistry.remove, hq]
    exact alookup_filter_of_none n _ r.nameIndex h

theorem alookup_remove_name_frame (r : SessionRegistry) (q : Nat) (n : String)
    (h : ∀ e, alookup q r.sessions = some e → e.name ≠ n) :
    alookup n ((r.remove q).1).nameIndex = alookup n r.nameIndex := by
  cases hq : alookup q r.sessions with
  | none => simp only [SessionRegistry.remove, hq]
  | some e =>
    simp only [SessionRegistry.remove, hq]
    rw [alookup_filter_keyNe n e.name r.nameIndex,
        if_neg (fun hh => h e hq hh.symm)]

theorem removeAll_cons (r : SessionRegistry) (q : Nat) (qs : List Nat) :
    removeAll r (q :: qs) = removeAll (r.remove q).1 qs := rfl

theorem alookup_removeAll_sessions (ps : List Nat) (r : SessionRegistry) (p : Nat) :
    alookup p (removeAll r ps).sessions =
      if p ∈ ps then none else alookup p r.sessions := by
  induction ps generalizing r with
  | nil => simp [removeAll]
  | cons q qs ih =>
    rw [removeAll_cons, ih]
    by_cases hmem : p ∈ qs
    · rw [if_pos hmem, if_pos (List.mem_cons_of_mem _ hmem)]
    · rw [if_neg hmem, alookup_remove_sessions]
      by_cases hpq : p = q
      · rw [if_pos hpq, if_pos (by rw [hpq]; exact List.mem_cons_self q qs)]
      · rw [if_neg hpq, if_neg (by simp [hpq, hmem] : ¬ p ∈ q :: qs)]

theorem alookup_removeAll_name_none (ps : List Nat) (r : SessionRegistry) (n : String)
    (h : alookup n r.nameIndex = none) :
    alookup n (removeAll r ps).nameIndex = none := by
  induction ps generalizing r with
  | nil => exact h
  | cons q qs ih =>
    rw [removeAll_cons]
    exact ih _ (alookup_remove_name_none r q n h)

theorem removeAll_name_removed (ps : List Nat) (r : SessionRegistry) (p : Nat)
    (e : SessionEntry) (hp : p ∈ ps) (he : alookup p r.sessions = some e) :
    alookup e.name (removeAll r ps).nameIndex = none := by
  induction ps generalizing r with
  | nil => simp at hp
  | cons q qs ih =>
    rw [removeAll_cons]
    by_cases hpq : p = q
    · have hq : alookup q r.sessions = some e := by rw [← hpq]; exact he
      have h1 : alookup e.name ((r.remove q).1).nameIndex = none := by
        simp only [SessionRegistry.remove, hq]
        rw [alookup_filter_keyNe e.name e.name r.nameIndex, if_pos rfl]
      exact alookup_removeAll_name_none qs _ _ h1
    · rcases List.mem_cons.mp hp with h1 | h2
      · exact absurd h1 hpq
      · have he2 : alookup p ((r.remove q).1).sessions = some e := by
          rw [alookup_remove_sessions, if_neg hpq]; exact he
        exact ih _ h2 he2

theorem removeAll_name_frame (ps : List Nat) (r : SessionRegistry) (n : String)
    (h : ∀ q ∈ ps, ∀ e, alookup q r.sessions = some e → e.name ≠ n) :
    alookup n (removeAll r ps).nameIndex = alookup n r.nameIndex := by
  induction ps generalizing r with
  | nil => rfl
  | cons q qs ih =>
    rw [removeAll_cons]
    have htail : ∀ q2 ∈ qs, ∀ e2,
        alookup q2 ((r.remove q).1).sessions = some e2 → e2.name ≠ n := by
      intro q2 hq2 e2 he2
      rw [alookup_remove_sessions] at he2
      by_cases hq2q : q2 = q
      · rw [if_pos hq2q] at he2; cases he2
      · rw [if_neg hq2q] at he2
        exact h q2 (List.mem_cons_of_mem _ hq2) e2 he2
    rw [ih _ htail, alookup_remove_name_frame r q n (h q (List.mem_cons_self q qs))]

theorem get_none_of_alookup_none (r : SessionRegistry) (p : Nat) (now : Int)
    (h : alookup p r.sessions = none) : (r.get p now).2 = none := by
  simp only [SessionRegistry.get, h]

theorem get_by_name_none_of_alookup_none (r : SessionRegistry) (n : String) (now : Int)
    (h : alookup n r.nameIndex = none) : (r.get_by_name n now).2 = none := by
  simp only [SessionRegistry.get_by_name, h]

theorem mem_cleanup_ports_iff (r : SessionRegistry) (now t : Int)
    (hnd : (r.sessions.map Prod.fst).Nodup) (p : Nat) :
    p ∈ (r.cleanup_timeout now t).2 ↔
      ∃ e, alookup p r.sessions = some e ∧ t < now - e.lastAccess := by
  unfold SessionRegistry.cleanup_timeout
  simp only [List.mem_map, List.mem_filter]
  constructor
  · rintro ⟨pair, ⟨hmem, hcond⟩, rfl⟩
    refine ⟨pair.2, ?_, of_decide_eq_true hcond⟩
    have hpair : (pair.1, pair.2) = pair := rfl
    exact alookup_eq_some_of_mem hnd (hpair ▸ hmem)
  · rintro ⟨e, he, hcond⟩
    exact ⟨(p, e), ⟨mem_of_alookup_eq_some he, decide_eq_true hcond⟩, rfl⟩

end Silc

/-- C10: for every well-formed registry state, `cleanup_timeout`
returns exactly the ports of the entries idle strictly longer than the
timeout, removes exactly those entries from both the port map and the
name index (so subsequent `get` and `get_by_name` calls for them yield
`None`), and leaves every other entry — its `last_access` included —
untouched in both indices. -/
theorem C10_cleanup_timeout_frame (r : Silc.SessionRegistry) (now t : Int)
    (hWF : r.WF) :
    (∀ p, p ∈ (r.cleanup_timeout now t).2 ↔
        ∃ e, Silc.alookup p r.sessions = some e ∧ t < now - e.lastAccess) ∧
    (∀ p e, p ∈ (r.cleanup_timeout now t).2 →
        Silc.alookup p r.sessions = some e →
        Silc.alookup p (r.cleanup_timeout now t).1.sessions = none ∧
        Silc.alookup e.name (r.cleanup_timeout now t).1.nameIndex = none ∧
        (∀ now2, ((r.cleanup_timeout now t).1.get p now2).2 = none) ∧
        (∀ now2, ((r.cleanup_timeout now t).1.get_by_name e.name now2).2 = none)) ∧
    (∀ p, p ∉ (r.cleanup_timeout now t).2 →
        Silc.alookup p (r.cleanup_timeout now t).1.sessions
          = Silc.alookup p r.sessions) ∧
    (∀ p e, (p, e) ∈ r.sessions → p ∉ (r.cleanup_timeout now t).2 →
        Silc.alookup e.name (r.cleanup_timeout now t).1.nameIndex
          = Silc.alookup e.name r.nameIndex) := by
  obtain ⟨hndS, hndN, hSN, hNS⟩ := hWF
  have hfst : (r.cleanup_timeout now t).1
      = Silc.removeAll r (r.cleanup_timeout now t).2 := rfl
  refine ⟨Silc.mem_cleanup_ports_iff r now t hndS, ?_, ?_, ?_⟩
  · intro p e hp he
    have hsess : Silc.alookup p (r.cleanup_timeout now t).1.sessions = none := by
      rw [hfst, Silc.alookup_removeAll_sessions, if_pos hp]
    have hname : Silc.alookup e.name (r.cleanup_timeout now t).1.nameIndex = none := by
      rw [hfst]
      exact Silc.removeAll_name_removed _ r p e hp he
    exact ⟨hsess, hname,
      fun now2 => Silc.get_none_of_alookup_none _ p now2 hsess,
      fun now2 => Silc.get_by_name_none_of_alookup_none _ e.name now2 hname⟩
  · intro p hp
    rw [hfst, Silc.alookup_removeAll_sessions, if_neg hp]
  · intro p e hmem hp
    rw [hfst]
    apply Silc.removeAll_name_frame
    intro q hq e2 he2 hname
    have hq_ne_p : q ≠ p := fun hh => hp (hh ▸ hq)
    have hmem2 : (q, e2) ∈ r.sessions := Silc.mem_of_alookup_eq_some he2
    have hn1 : (e.name, p) ∈ r.nameIndex := (hSN (p, e) hmem).2
    have hn2 : (e2.name, q) ∈ r.nameIndex := (hSN (q, e2) hmem2).2
    rw [hname] at hn2
    exact hq_ne_p (Silc.keyUnique hndN hn1 hn2).symm

namespace Silc

/-- A concrete two-session registry: port 1 (`a`, idle 100 s) and
port 2 (`b`, idle 10 s) at `now = 100`. -/
def sampleEntryA : SessionEntry :=
  { port := 1, name := "a", sessionId := "i1", shellType := "bash",
    createdAt := 0, lastAccess := 0 }

def sampleEntryB : SessionEntry :=
  { port := 2, name := "b", sessionId := "i2", shellType := "bash",
    createdAt := 0, lastAccess := 90 }

def sampleRegistry : SessionRegistry :=
  { sessions := [(1, sampleEntryA), (2, sampleEntryB)],
    nameIndex := [("a", 1), ("b", 2)] }

end Silc

/-- Witness for C10 on the sample registry with timeout 50 at
`now = 100`: port 1 is reaped from both indices (`get` and
`get_by_name` then yield `None`) and port 2 survives untouched. -/
theorem C10_cleanup_timeout_frame_witness :
    Silc.sampleRegistry.WF ∧
    1 ∈ (Silc.sampleRegistry.cleanup_timeout 100 50).2 ∧
    Silc.alookup 1 (Silc.sampleRegistry.cleanup_timeout 100 50).1.sessions = none ∧
    Silc.alookup "a" (Silc.sampleRegistry.cleanup_timeout 100 50).1.nameIndex = none ∧
    ((Silc.sampleRegistry.cleanup_timeout 100 50).1.get 1 123).2 = none ∧
    ((Silc.sampleRegistry.cleanup_timeout 100 50).1.get_by_name "a" 123).2 = none ∧
    Silc.alookup 2 (Silc.sampleRegistry.cleanup_timeout 100 50).1.sessions
      = Silc.alookup 2 Silc.sampleRegistry.sessions ∧
    Silc.alookup "b" (Silc.sampleRegistry.cleanup_timeout 100 50).1.nameIndex
      = Silc.alookup "b" Silc.sampleRegistry.nameIndex := by
  have hWF : Silc.sampleRegistry.WF := by decide
  have H := C10_cleanup_timeout_frame Silc.sampleRegistry 100 50 hWF
  have hpart2 := H.2.1 1 Silc.sampleEntryA (by decide) (by decide)
  refine ⟨hWF, by decide, hpart2.1, hpart2.2.1, hpart2.2.2.1 123, hpart2.2.2.2 123,
    H.2.2.1 2 (by decide), H.2.2.2 2 Silc.sampleEntryB (by decide) (by decide)⟩
